import Mathlib

/-!
# Verification of the GitHub portfolio MCP server

A shallow embedding, in Lean 4, of the TypeScript source of
`github-portfolio-mcp-server` (the dual-transport `index.ts`): the six domain
handlers (`list_repos`, `get_repo_details`, `get_languages`, `get_profile`,
`search_repos`, `get_tech_stack_summary`), the tool registry, the HTTP proxy
`POST /call/:tool` route, and the startup transport selection.

Conventions of the embedding:
* Upstream HTTP fetches are modelled by passing the fetched value (or an
  `Except String` carrying the stringified error) as an explicit argument.
* JavaScript objects used as string-keyed maps (`langCounts`, `topicCounts`)
  are modelled as association lists with JS insertion-order semantics:
  an update of an existing key keeps its position, a new key is appended.
  `Object.entries` then enumerates integer-index keys first, in ascending
  numeric order, before the remaining keys in insertion order
  (`jsEntriesOrder`), per ECMAScript `OrdinaryOwnPropertyKeys`.
* Property access on the object literal `TOOL_REGISTRY` consults the
  `Object.prototype` chain after the own properties (`findTool`).
* The host's Unicode `String.prototype.toLowerCase` is a runtime
  primitive: the search handler is parametrized by it rather than fixing
  a particular case mapping.
* `JSON.stringify(v, null, 2)` is modelled by an executable pretty-printer
  over a `Json` value type.
* `Array.prototype.sort(cmp)` (stable since ES2019) is modelled by
  `List.mergeSort le` where `le a b` holds iff `cmp a b ≤ 0`.
* JS numbers appearing here are integers (star counts, byte counts), modelled
  as `Nat`/`Int`; the one floating-point expression,
  `((bytes / total) * 100).toFixed(1)`, is modelled exactly over `ℚ` with
  round-half-up to one decimal place.
-/

namespace GithubPortfolio

/-! ## JSON values and `JSON.stringify(v, null, 2)` -/

/-- A JSON value as produced by the handlers (JS `JSON.stringify` input).
`num` is an integer because every number the server serializes is an
integer (star counts, fork counts, byte counts, repo counts). -/
inductive Json where
  | null : Json
  | bool : Bool → Json
  | num : Int → Json
  | str : String → Json
  | arr : List Json → Json
  | obj : List (String × Json) → Json

/-- One hexadecimal digit, lower case. -/
def hexDigit (n : Nat) : String :=
  String.singleton (if n < 10 then Char.ofNat (48 + n) else Char.ofNat (87 + n))

/-- JSON string escaping of a single character, as JS `JSON.stringify` does:
quote, backslash, the named control escapes, and `\u00XX` for the other
control characters. -/
def jsonEscapeChar (c : Char) : String :=
  if c = '"' then "\\\""
  else if c = '\\' then "\\\\"
  else if c = Char.ofNat 8 then "\\b"
  else if c = Char.ofNat 9 then "\\t"
  else if c = Char.ofNat 10 then "\\n"
  else if c = Char.ofNat 12 then "\\f"
  else if c = Char.ofNat 13 then "\\r"
  else if c.toNat < 32 then "\\u00" ++ hexDigit (c.toNat / 16) ++ hexDigit (c.toNat % 16)
  else String.singleton c

/-- JSON string quoting with escapes. -/
def jsonQuote (s : String) : String :=
  "\"" ++ String.join (s.toList.map jsonEscapeChar) ++ "\""

/-- `n` spaces. -/
def spaces (n : Nat) : String := String.mk (List.replicate n ' ')

mutual

/-- `JSON.stringify(v, null, 2)` at nesting indentation `ind`:
empty arrays/objects print as `[]`/`\x7b\x7d`; non-empty ones put every
element on its own line indented two further spaces. -/
def jsonPretty (ind : Nat) : Json → String
  | .null => "null"
  | .bool true => "true"
  | .bool false => "false"
  | .num n => toString n
  | .str s => jsonQuote s
  | .arr [] => "[]"
  | .arr (x :: xs) =>
      "[\n" ++ jsonPrettyArr (ind + 2) (x :: xs) ++ "\n" ++ spaces ind ++ "]"
  | .obj [] => "\x7b\x7d"
  | .obj (kv :: kvs) =>
      "\x7b\n" ++ jsonPrettyObj (ind + 2) (kv :: kvs) ++ "\n" ++ spaces ind ++ "\x7d"

/-- Array elements, one per line, comma-separated. -/
def jsonPrettyArr (ind : Nat) : List Json → String
  | [] => ""
  | [x] => spaces ind ++ jsonPretty ind x
  | x :: y :: rest =>
      spaces ind ++ jsonPretty ind x ++ ",\n" ++ jsonPrettyArr ind (y :: rest)

/-- Object fields, one per line, comma-separated, `"key": value`. -/
def jsonPrettyObj (ind : Nat) : List (String × Json) → String
  | [] => ""
  | [kv] => spaces ind ++ jsonQuote kv.1 ++ ": " ++ jsonPretty ind kv.2
  | kv :: kv2 :: rest =>
      spaces ind ++ jsonQuote kv.1 ++ ": " ++ jsonPretty ind kv.2 ++ ",\n" ++
        jsonPrettyObj ind (kv2 :: rest)

end

/-- Top-level `JSON.stringify(v, null, 2)`. -/
def jsonStringify (v : Json) : String := jsonPretty 0 v

/-- `null` for an absent string, the string otherwise (JS `string | null`). -/
def jsonOfOptStr : Option String → Json
  | none => .null
  | some s => .str s

/-! ## Upstream data shapes

The `GHRepo` interface of the source (fields and names verbatim;
`string | null` becomes `Option String`). -/

structure GHRepo where
  name : String
  full_name : String
  html_url : String
  description : Option String
  language : Option String
  stargazers_count : Nat
  forks_count : Nat
  topics : List String
  fork : Bool
  created_at : String
  updated_at : String
  pushed_at : String
deriving DecidableEq

/-- The `GHUser` interface of the source. -/
structure GHUser where
  login : String
  name : Option String
  bio : Option String
  html_url : String
  avatar_url : String
  location : Option String
  company : Option String
  blog : String
  public_repos : Nat
  followers : Nat
  following : Nat
deriving DecidableEq

/-! ## `list_repos` -/

/-- The three values of the `sort` argument of `list_repos`. -/
inductive SortKey where
  | updated : SortKey
  | stars : SortKey
  | name : SortKey
deriving DecidableEq

/-- ASCII per-character lowercasing (`Char.toLower`).  This is *not* the
full Unicode mapping of JS `String.prototype.toLowerCase()`; it serves as
the definite case mapping of the `localeCompare` order model below (GitHub
repository names are ASCII) and as a concrete instantiation of the abstract
lowercasing primitive in witnesses.  Where full Unicode lowercasing
matters (the search handler, whose descriptions and queries are arbitrary
text), the handler is parametrized by the host's lowercasing function
instead of fixing this one. -/
def toLowerStr (s : String) : String := String.mk (s.toList.map Char.toLower)

/-- Model of the JS `a.localeCompare(b) ≤ 0` relation used by the
`sort: "name"` comparator: a case-aware lexicographic order whose primary
key is the lowercased character sequence and whose tiebreak is the raw
character sequence. -/
def nameLeProp (a b : String) : Prop :=
  (toLowerStr a).toList < (toLowerStr b).toList ∨
    ((toLowerStr a).toList = (toLowerStr b).toList ∧ a.toList ≤ b.toList)

instance (a b : String) : Decidable (nameLeProp a b) := by
  unfold nameLeProp; infer_instance

/-- Boolean form of `nameLeProp`, the `le` fed to the stable sort. -/
def nameLe (a b : String) : Bool := decide (nameLeProp a b)

/-- `le` for the `sort: "stars"` comparator `(a, b) => b.stars - a.stars`:
`a` may precede `b` iff the comparator is `≤ 0`, i.e. `b.stars ≤ a.stars`. -/
def starsLe (a b : GHRepo) : Bool := decide (b.stargazers_count ≤ a.stargazers_count)

/-- The repository list produced by `handleListRepos` before projection:
drop forks unless `include_forks`, then stably re-sort for `stars` / `name`
(`updated` keeps the upstream order, which is already most-recently-updated
first). -/
def listReposList (repos : List GHRepo) (include_forks : Bool) (sort : SortKey) :
    List GHRepo :=
  let filtered := if include_forks then repos else repos.filter (fun r => !r.fork)
  match sort with
  | .stars => filtered.mergeSort starsLe
  | .name => filtered.mergeSort (fun a b => nameLe a.name b.name)
  | .updated => filtered

/-- The per-repository projection serialized by `handleListRepos`. -/
def projectRepoSummary (r : GHRepo) : Json :=
  .obj [("name", .str r.name), ("description", jsonOfOptStr r.description),
        ("language", jsonOfOptStr r.language), ("stars", .num r.stargazers_count),
        ("forks", .num r.forks_count), ("topics", .arr (r.topics.map Json.str)),
        ("url", .str r.html_url), ("updated", .str r.updated_at)]

/-- `handleListRepos`, given the already-fetched repository page. -/
def handleListRepos (repos : List GHRepo) (include_forks : Bool) (sort : SortKey) :
    String :=
  jsonStringify (.arr ((listReposList repos include_forks sort).map projectRepoSummary))

/-! ### Order lemmas for the two sort comparators -/

theorem nameLeProp_trans {a b c : String} (h1 : nameLeProp a b) (h2 : nameLeProp b c) :
    nameLeProp a c := by
  rcases h1 with h1 | ⟨e1, l1⟩
  · rcases h2 with h2 | ⟨e2, _⟩
    · exact Or.inl (lt_trans h1 h2)
    · exact Or.inl (e2 ▸ h1)
  · rcases h2 with h2 | ⟨e2, l2⟩
    · exact Or.inl (e1 ▸ h2)
    · exact Or.inr ⟨e1.trans e2, le_trans l1 l2⟩

theorem nameLeProp_total (a b : String) : nameLeProp a b ∨ nameLeProp b a := by
  rcases lt_trichotomy (toLowerStr a).toList (toLowerStr b).toList with h | h | h
  · exact Or.inl (Or.inl h)
  · rcases le_total a.toList b.toList with hl | hl
    · exact Or.inl (Or.inr ⟨h, hl⟩)
    · exact Or.inr (Or.inr ⟨h.symm, hl⟩)
  · exact Or.inr (Or.inl h)

theorem nameLe_trans {a b c : String} (h1 : nameLe a b = true) (h2 : nameLe b c = true) :
    nameLe a c = true :=
  decide_eq_true (nameLeProp_trans (of_decide_eq_true h1) (of_decide_eq_true h2))

theorem nameLe_total (a b : String) : (nameLe a b || nameLe b a) = true := by
  rcases nameLeProp_total a b with h | h
  · exact Bool.or_eq_true_iff.mpr (Or.inl (decide_eq_true h))
  · exact Bool.or_eq_true_iff.mpr (Or.inr (decide_eq_true h))

theorem starsLe_trans {a b c : GHRepo} (h1 : starsLe a b = true) (h2 : starsLe b c = true) :
    starsLe a c = true :=
  decide_eq_true (le_trans (of_decide_eq_true h2) (of_decide_eq_true h1))

theorem starsLe_total (a b : GHRepo) : (starsLe a b || starsLe b a) = true := by
  rcases le_total b.stargazers_count a.stargazers_count with h | h
  · exact Bool.or_eq_true_iff.mpr (Or.inl (decide_eq_true h))
  · exact Bool.or_eq_true_iff.mpr (Or.inr (decide_eq_true h))

/-- Membership in the `list_repos` output list is membership in the
fork-filtered upstream list, for every sort key. -/
theorem mem_listReposList {r : GHRepo} {repos : List GHRepo} {inc : Bool} {sort : SortKey} :
    r ∈ listReposList repos inc sort ↔
      r ∈ (if inc then repos else repos.filter (fun r => !r.fork)) := by
  cases sort <;> simp [listReposList]

/-- C1: with `include_forks = false` no fork appears in the output, and the
`include_forks = true` output contains (as names) every name the
`include_forks = false` output contains, for every sort key. -/
theorem list_repos_fork_filter_and_superset (repos : List GHRepo) (sort : SortKey) :
    (∀ r ∈ listReposList repos false sort, r.fork = false) ∧
      (∀ r ∈ listReposList repos false sort,
        r.name ∈ (listReposList repos true sort).map GHRepo.name) := by
  constructor
  · intro r hr
    have h := mem_listReposList.mp hr
    simp only [if_neg (Bool.false_ne_true), List.mem_filter, Bool.not_eq_eq_eq_not,
      Bool.not_true] at h
    simpa using h.2
  · intro r hr
    have h := mem_listReposList.mp hr
    simp only [if_neg (Bool.false_ne_true), List.mem_filter] at h
    exact List.mem_map.mpr ⟨r, mem_listReposList.mpr (by simpa using h.1), rfl⟩

/-- C2: `sort = name` output is pairwise non-decreasing in the case-aware
lexicographic name order; `sort = stars` output is pairwise non-increasing in
star count; `sort = updated` output is exactly the fork-filtered upstream
list, hence preserves upstream relative order (it is a sublist of it). -/
theorem list_repos_sorting (repos : List GHRepo) (inc : Bool) :
    ((listReposList repos inc .name).Pairwise (fun a b => nameLeProp a.name b.name)) ∧
      ((listReposList repos inc .stars).Pairwise
        (fun a b => b.stargazers_count ≤ a.stargazers_count)) ∧
      ((listReposList repos inc .updated).Sublist repos) ∧
      (listReposList repos inc .updated =
        if inc then repos else repos.filter (fun r => !r.fork)) := by
  refine ⟨?_, ?_, ?_, rfl⟩
  · have h := @List.sorted_mergeSort GHRepo (fun a b => nameLe a.name b.name)
      (fun _ _ _ h1 h2 => nameLe_trans h1 h2) (fun a b => nameLe_total a.name b.name)
      (if inc then repos else repos.filter (fun r => !r.fork))
    exact h.imp (fun hab => of_decide_eq_true hab)
  · have h := @List.sorted_mergeSort GHRepo starsLe
      (fun _ _ _ h1 h2 => starsLe_trans h1 h2) starsLe_total
      (if inc then repos else repos.filter (fun r => !r.fork))
    exact h.imp (fun hab => of_decide_eq_true hab)
  · show (if inc then repos else repos.filter (fun r => !r.fork)).Sublist repos
    cases inc
    · simp only [Bool.false_eq_true, if_false]
      exact List.filter_sublist repos
    · simp

/-- A single concrete non-fork repository used by witnesses. -/
def soloRepo : GHRepo :=
  { name := "solo", full_name := "o/solo", html_url := "https://example.test/solo",
    description := some "a demo", language := some "TypeScript", stargazers_count := 2,
    forks_count := 1, topics := ["demo"], fork := false,
    created_at := "2024-01-01T00:00:00Z", updated_at := "2024-04-01T00:00:00Z",
    pushed_at := "2024-04-01T00:00:00Z" }

/-- Witness for C1 at the concrete input `[soloRepo]` with the default
sort key. -/
theorem list_repos_fork_filter_and_superset_witness :
    soloRepo ∈ listReposList [soloRepo] false SortKey.updated ∧
      soloRepo.fork = false ∧
      soloRepo.name ∈ (listReposList [soloRepo] true SortKey.updated).map GHRepo.name :=
  ⟨by decide,
    (list_repos_fork_filter_and_superset [soloRepo] SortKey.updated).1 soloRepo (by decide),
    (list_repos_fork_filter_and_superset [soloRepo] SortKey.updated).2 soloRepo (by decide)⟩

/-! ## `get_tech_stack_summary`

The source builds two plain JS objects used as counters
(`langCounts[k] = (langCounts[k] ?? 0) + 1`).  A JS object keeps string keys
in insertion order, so the counter maps are modelled as association lists
where updating an existing key keeps its position and a new key is appended.
The source fills both counters in a single loop over the non-fork repos; the
two counters are independent, so they are modelled as two folds. -/

/-- `m[k] = (m[k] ?? 0) + 1` on an insertion-ordered string-keyed object. -/
def bumpKey : List (String × Nat) → String → List (String × Nat)
  | [], k => [(k, 1)]
  | (k', v) :: rest, k =>
      if k' = k then (k', v + 1) :: rest else (k', v) :: bumpKey rest k

/-- The language key a repo contributes, if any: JS `if (repo.language)` is
false for `null` and for the empty string. -/
def langKey (r : GHRepo) : Option String :=
  match r.language with
  | none => none
  | some s => if s.isEmpty then none else some s

/-- One loop iteration's effect on `langCounts`. -/
def stepLang (m : List (String × Nat)) (r : GHRepo) : List (String × Nat) :=
  match langKey r with
  | some k => bumpKey m k
  | none => m

/-- One loop iteration's effect on `topicCounts`:
`for (const t of repo.topics) topicCounts[t] = (topicCounts[t] ?? 0) + 1`. -/
def stepTopics (m : List (String × Nat)) (r : GHRepo) : List (String × Nat) :=
  r.topics.foldl bumpKey m

/-- `repos.filter((r) => !r.fork)`. -/
def originalsOf (repos : List GHRepo) : List GHRepo := repos.filter (fun r => !r.fork)

/-- The `langCounts` object after the loop: its own properties with their
counts, in insertion order. -/
def langCountsMap (repos : List GHRepo) : List (String × Nat) :=
  (originalsOf repos).foldl stepLang []

/-- The `topicCounts` object after the loop: its own properties with their
counts, in insertion order. -/
def topicCountsMap (repos : List GHRepo) : List (String × Nat) :=
  (originalsOf repos).foldl stepTopics []

/-- Decimal digit test. -/
def isDigitCh (c : Char) : Bool := decide ('0' ≤ c ∧ c ≤ '9')

/-- Decimal value of a digit list. -/
def decimalVal (ds : List Char) : Nat :=
  ds.foldl (fun a c => a * 10 + (c.toNat - 48)) 0

/-- ECMAScript array-index property key: the canonical decimal form (no
leading zero except `"0"` itself) of an integer below `2^32 - 1`.  Such keys
— e.g. the valid GitHub topics `"7"` or `"2024"` — are enumerated before
all other string keys. -/
def isArrayIndexKey (s : String) : Bool :=
  match s.toList with
  | [] => false
  | ['0'] => true
  | c :: cs =>
      decide (c ≠ '0') && (c :: cs).all isDigitCh &&
        decide (decimalVal (c :: cs) < 4294967295)

/-- Ascending numeric order on integer-index keys. -/
def idxKeyLe (p q : String × Nat) : Bool :=
  decide (decimalVal p.1.toList ≤ decimalVal q.1.toList)

/-- `Object.entries` enumeration order (ECMAScript
`OrdinaryOwnPropertyKeys`): integer-index keys first, in ascending numeric
order, then the remaining string keys in insertion order. -/
def jsEntriesOrder (m : List (String × Nat)) : List (String × Nat) :=
  (m.filter (fun p => isArrayIndexKey p.1)).mergeSort idxKeyLe ++
    m.filter (fun p => !isArrayIndexKey p.1)

/-- `Object.entries(langCounts)`. -/
def techLangCounts (repos : List GHRepo) : List (String × Nat) :=
  jsEntriesOrder (langCountsMap repos)

/-- `Object.entries(topicCounts)`. -/
def techTopicCounts (repos : List GHRepo) : List (String × Nat) :=
  jsEntriesOrder (topicCountsMap repos)

/-- `le` for the comparator `([, a], [, b]) => b - a`: `x` may precede `y`
iff `y`'s count is `≤` `x`'s. -/
def countLe (x y : String × Nat) : Bool := decide (y.2 ≤ x.2)

/-- `Object.entries(counts).sort(([, a], [, b]) => b - a)` (stable). -/
def sortCountsDesc (m : List (String × Nat)) : List (String × Nat) :=
  m.mergeSort countLe

/-- The value serialized by `handleGetTechStackSummary`. -/
def techStackSummaryJson (repos : List GHRepo) : Json :=
  .obj [("total_original_repos", .num (originalsOf repos).length),
        ("languages", .arr ((sortCountsDesc (techLangCounts repos)).map
            (fun p => .obj [("language", .str p.1), ("repo_count", .num p.2)]))),
        ("topics", .arr ((sortCountsDesc (techTopicCounts repos)).map
            (fun p => .obj [("topic", .str p.1), ("repo_count", .num p.2)])))]

/-- `handleGetTechStackSummary`, given the already-fetched repository page. -/
def handleGetTechStackSummary (repos : List GHRepo) : String :=
  jsonStringify (techStackSummaryJson repos)

/-! ### Counter-map lemmas -/

/-- The count stored at a key (0 when absent), reading the first occurrence
as JS property lookup does. -/
def getCount : List (String × Nat) → String → Nat
  | [], _ => 0
  | (k', v) :: rest, k => if k' = k then v else getCount rest k

/-- The sum of all stored counts. -/
def sumCounts (m : List (String × Nat)) : Nat := (m.map (fun p => p.2)).sum

/-- The key sequence of a counter map. -/
def keysOf (m : List (String × Nat)) : List String := m.map (fun p => p.1)

theorem getCount_bumpKey_self (m : List (String × Nat)) (k : String) :
    getCount (bumpKey m k) k = getCount m k + 1 := by
  induction m with
  | nil => simp [bumpKey, getCount]
  | cons q rest ih =>
    obtain ⟨k', v⟩ := q
    by_cases h : k' = k
    · simp [bumpKey, getCount, h]
    · simp [bumpKey, getCount, h, ih]

theorem keysOf_cons (q : String × Nat) (m : List (String × Nat)) :
    keysOf (q :: m) = q.1 :: keysOf m := rfl

theorem getCount_bumpKey_ne (m : List (String × Nat)) {k k' : String} (h : k' ≠ k) :
    getCount (bumpKey m k) k' = getCount m k' := by
  induction m with
  | nil =>
    have hne : ¬ k = k' := fun hh => h hh.symm
    simp [bumpKey, getCount, hne]
  | cons q rest ih =>
    obtain ⟨k'', v⟩ := q
    by_cases h2 : k'' = k
    · have hne : ¬ k'' = k' := fun hh => h (hh ▸ h2)
      simp [bumpKey, getCount, if_pos h2, hne]
    · simp [bumpKey, getCount, h2, ih]

theorem sumCounts_bumpKey (m : List (String × Nat)) (k : String) :
    sumCounts (bumpKey m k) = sumCounts m + 1 := by
  induction m with
  | nil => simp [bumpKey, sumCounts]
  | cons q rest ih =>
    obtain ⟨k', v⟩ := q
    by_cases h : k' = k
    · simp [bumpKey, sumCounts, h]
      omega
    · simp only [bumpKey, sumCounts, if_neg h, List.map_cons, List.sum_cons] at *
      omega

theorem pos_bumpKey {m : List (String × Nat)} (hm : ∀ p ∈ m, 1 ≤ p.2) (k : String) :
    ∀ p ∈ bumpKey m k, 1 ≤ p.2 := by
  induction m with
  | nil =>
    intro p hp
    simp [bumpKey] at hp
    simp [hp]
  | cons q rest ih =>
    obtain ⟨k', v⟩ := q
    intro p hp
    by_cases h : k' = k
    · simp [bumpKey, h] at hp
      rcases hp with hp | hp
      · simp [hp]
      · exact hm p (List.mem_cons_of_mem _ hp)
    · simp only [bumpKey, if_neg h, List.mem_cons] at hp
      rcases hp with hp | hp
      · exact hp ▸ hm (k', v) (List.mem_cons_self _ _)
      · exact ih (fun p hp => hm p (List.mem_cons_of_mem _ hp)) p hp

theorem keysOf_bumpKey (m : List (String × Nat)) (k : String) :
    keysOf (bumpKey m k) = if k ∈ keysOf m then keysOf m else keysOf m ++ [k] := by
  induction m with
  | nil => simp [bumpKey, keysOf]
  | cons q rest ih =>
    obtain ⟨k', v⟩ := q
    by_cases h : k' = k
    · simp [bumpKey, keysOf_cons, h]
    · have h' : ¬ k = k' := fun hh => h hh.symm
      simp only [bumpKey, if_neg h, keysOf_cons, ih, List.mem_cons, h', false_or]
      by_cases h2 : k ∈ keysOf rest
      · simp [h2]
      · simp [h2]

theorem nodup_keys_bumpKey {m : List (String × Nat)} (hm : (keysOf m).Nodup)
    (k : String) : (keysOf (bumpKey m k)).Nodup := by
  rw [keysOf_bumpKey]
  by_cases h : k ∈ keysOf m
  · simpa [h] using hm
  · simp only [if_neg h]
    simpa [List.nodup_append] using ⟨hm, fun hk => h hk⟩

theorem getCount_foldl_bumpKey (ts : List String) (m : List (String × Nat)) (k : String) :
    getCount (ts.foldl bumpKey m) k = getCount m k + ts.count k := by
  induction ts generalizing m with
  | nil => simp
  | cons t ts ih =>
    simp only [List.foldl_cons, ih, List.count_cons]
    by_cases h : t = k
    · subst h
      rw [getCount_bumpKey_self]
      simp only [beq_self_eq_true, if_true]
      omega
    · rw [getCount_bumpKey_ne _ (fun hh => h hh.symm)]
      have hbe : (t == k) = false := beq_eq_false_iff_ne.mpr h
      simp only [hbe, Bool.false_eq_true, if_false]
      omega

theorem sumCounts_foldl_bumpKey (ts : List String) (m : List (String × Nat)) :
    sumCounts (ts.foldl bumpKey m) = sumCounts m + ts.length := by
  induction ts generalizing m with
  | nil => simp
  | cons t ts ih =>
    simp only [List.foldl_cons, ih, sumCounts_bumpKey, List.length_cons]
    omega

theorem pos_foldl_bumpKey (ts : List String) {m : List (String × Nat)}
    (hm : ∀ p ∈ m, 1 ≤ p.2) : ∀ p ∈ ts.foldl bumpKey m, 1 ≤ p.2 := by
  induction ts generalizing m with
  | nil => exact hm
  | cons t ts ih => exact ih (pos_bumpKey hm t)

theorem nodup_keys_foldl_bumpKey (ts : List String) {m : List (String × Nat)}
    (hm : (keysOf m).Nodup) : (keysOf (ts.foldl bumpKey m)).Nodup := by
  induction ts generalizing m with
  | nil => exact hm
  | cons t ts ih => exact ih (nodup_keys_bumpKey hm t)

theorem sumCounts_foldl_stepLang (l : List GHRepo) (m : List (String × Nat)) :
    sumCounts (l.foldl stepLang m) = sumCounts m + l.countP (fun r => (langKey r).isSome) := by
  induction l generalizing m with
  | nil => simp
  | cons r l ih =>
    simp only [List.foldl_cons, ih, List.countP_cons]
    cases h : langKey r with
    | none => simp [stepLang, h]
    | some k =>
      simp only [stepLang, h, sumCounts_bumpKey, Option.isSome_some, if_true]
      omega

theorem sumCounts_foldl_stepTopics (l : List GHRepo) (m : List (String × Nat)) :
    sumCounts (l.foldl stepTopics m) =
      sumCounts m + (l.map (fun r => r.topics.length)).sum := by
  induction l generalizing m with
  | nil => simp
  | cons r l ih =>
    simp only [List.foldl_cons, ih, stepTopics, sumCounts_foldl_bumpKey, List.map_cons,
      List.sum_cons]
    omega

theorem getCount_foldl_stepTopics (l : List GHRepo) (m : List (String × Nat)) (k : String) :
    getCount (l.foldl stepTopics m) k =
      getCount m k + (l.map (fun r => r.topics.count k)).sum := by
  induction l generalizing m with
  | nil => simp
  | cons r l ih =>
    simp only [List.foldl_cons, ih, stepTopics, getCount_foldl_bumpKey, List.map_cons,
      List.sum_cons]
    omega

theorem pos_foldl_stepLang (l : List GHRepo) {m : List (String × Nat)}
    (hm : ∀ p ∈ m, 1 ≤ p.2) : ∀ p ∈ l.foldl stepLang m, 1 ≤ p.2 := by
  induction l generalizing m with
  | nil => exact hm
  | cons r l ih =>
    refine ih ?_
    cases h : langKey r with
    | none => simpa [stepLang, h] using hm
    | some k =>
      simp only [stepLang, h]
      exact pos_bumpKey hm k

theorem pos_foldl_stepTopics (l : List GHRepo) {m : List (String × Nat)}
    (hm : ∀ p ∈ m, 1 ≤ p.2) : ∀ p ∈ l.foldl stepTopics m, 1 ≤ p.2 := by
  induction l generalizing m with
  | nil => exact hm
  | cons r l ih => exact ih (pos_foldl_bumpKey r.topics hm)

theorem nodup_keys_foldl_stepTopics (l : List GHRepo) {m : List (String × Nat)}
    (hm : (keysOf m).Nodup) : (keysOf (l.foldl stepTopics m)).Nodup := by
  induction l generalizing m with
  | nil => exact hm
  | cons r l ih => exact ih (nodup_keys_foldl_bumpKey r.topics hm)

/-- In a counter map with distinct keys, every entry's stored value is the
count read at its key. -/
theorem getCount_of_mem {m : List (String × Nat)} (hnd : (keysOf m).Nodup)
    {p : String × Nat} (hp : p ∈ m) : getCount m p.1 = p.2 := by
  induction m with
  | nil => cases hp
  | cons q rest ih =>
    rcases List.mem_cons.mp hp with hp | hp
    · subst hp
      simp [getCount]
    · have hk : p.1 ∈ keysOf rest := List.mem_map.mpr ⟨p, hp, rfl⟩
      have hne : ¬ q.1 = p.1 := by
        intro hh
        rw [keysOf_cons] at hnd
        exact (List.nodup_cons.mp hnd).1 (hh ▸ hk)
      calc getCount (q :: rest) p.1 = getCount rest p.1 := by
            obtain ⟨k', v⟩ := q
            simp [getCount, hne]
          _ = p.2 := ih (List.nodup_cons.mp (keysOf_cons q rest ▸ hnd)).2 hp

/-! ### Stability and sortedness of the descending count sort -/

theorem countLe_trans {a b c : String × Nat} (h1 : countLe a b = true)
    (h2 : countLe b c = true) : countLe a c = true :=
  decide_eq_true (le_trans (of_decide_eq_true h2) (of_decide_eq_true h1))

theorem countLe_total (a b : String × Nat) : (countLe a b || countLe b a) = true := by
  rcases le_total b.2 a.2 with h | h
  · exact Bool.or_eq_true_iff.mpr (Or.inl (decide_eq_true h))
  · exact Bool.or_eq_true_iff.mpr (Or.inr (decide_eq_true h))

/-- The descending stable sort is sorted: counts are pairwise non-increasing. -/
theorem sortCountsDesc_sorted (m : List (String × Nat)) :
    (sortCountsDesc m).Pairwise (fun x y => y.2 ≤ x.2) :=
  (@List.sorted_mergeSort (String × Nat) countLe
      (fun _ _ _ h1 h2 => countLe_trans h1 h2) countLe_total m).imp
    (fun h => of_decide_eq_true h)

/-- Stability of the descending count sort: restricted to any one count value,
the sorted output lists the entries in their original relative order. -/
theorem sortCountsDesc_stable (m : List (String × Nat)) (c : Nat) :
    (sortCountsDesc m).filter (fun p => decide (p.2 = c)) =
      m.filter (fun p => decide (p.2 = c)) := by
  have hpw : (m.filter (fun p => decide (p.2 = c))).Pairwise
      (fun x y => countLe x y = true) := by
    apply List.pairwise_of_forall_mem_list
    intro x hx y hy
    have hx2 : x.2 = c := of_decide_eq_true (List.mem_filter.mp hx).2
    have hy2 : y.2 = c := of_decide_eq_true (List.mem_filter.mp hy).2
    exact decide_eq_true (le_of_eq (hy2.trans hx2.symm))
  have hsub : (m.filter (fun p => decide (p.2 = c))).Sublist (sortCountsDesc m) := by
    unfold sortCountsDesc
    exact @List.sublist_mergeSort (String × Nat) countLe m
      (fun _ _ _ h1 h2 => countLe_trans h1 h2) countLe_total
      (m.filter (fun p => decide (p.2 = c))) hpw (List.filter_sublist m)
  have h2 := hsub.filter (fun p => decide (p.2 = c))
  simp only [List.filter_filter, Bool.and_self] at h2
  have hperm : List.Perm ((sortCountsDesc m).filter (fun p => decide (p.2 = c)))
      (m.filter (fun p => decide (p.2 = c))) :=
    List.Perm.filter _ (List.mergeSort_perm m countLe)
  exact (h2.eq_of_length hperm.length_eq.symm).symm

/-- The `Object.entries` enumeration is a permutation of the insertion-order
entry list. -/
theorem jsEntriesOrder_perm (m : List (String × Nat)) :
    List.Perm (jsEntriesOrder m) m := by
  unfold jsEntriesOrder
  exact List.Perm.trans
    (List.Perm.append_right _ (List.mergeSort_perm _ idxKeyLe))
    (List.filter_append_perm _ m)

theorem mem_jsEntriesOrder {p : String × Nat} {m : List (String × Nat)} :
    p ∈ jsEntriesOrder m ↔ p ∈ m :=
  (jsEntriesOrder_perm m).mem_iff

theorem sumCounts_jsEntriesOrder (m : List (String × Nat)) :
    sumCounts (jsEntriesOrder m) = sumCounts m :=
  List.Perm.sum_eq (List.Perm.map _ (jsEntriesOrder_perm m))

/-- When no key is an integer-index string — as with real language names —
the `Object.entries` enumeration is exactly the insertion (first-seen)
order. -/
theorem jsEntriesOrder_of_no_index {m : List (String × Nat)}
    (h : ∀ p ∈ m, isArrayIndexKey p.1 = false) : jsEntriesOrder m = m := by
  unfold jsEntriesOrder
  rw [List.filter_eq_nil_iff.mpr (by simpa using h)]
  rw [List.filter_eq_self.mpr (by simpa using h)]
  simp

/-- Filtering forks out twice is the same as filtering once, so the tech-stack
summary of a list already restricted to non-forks equals the original. -/
theorem originalsOf_filter (repos : List GHRepo) :
    originalsOf (repos.filter (fun r => !r.fork)) = originalsOf repos := by
  unfold originalsOf
  rw [List.filter_filter]
  simp only [Bool.and_self]

/-- Two non-fork repositories whose single topics tie at count 1: `"a"` is
seen first, the integer-index topic `"7"` second. -/
def repoTopicA : GHRepo :=
  { name := "first", full_name := "o/first", html_url := "https://example.test/first",
    description := none, language := none, stargazers_count := 0, forks_count := 0,
    topics := ["a"], fork := false, created_at := "2024-01-01T00:00:00Z",
    updated_at := "2024-02-01T00:00:00Z", pushed_at := "2024-02-01T00:00:00Z" }

/-- See `repoTopicA`. -/
def repoTopic7 : GHRepo :=
  { name := "second", full_name := "o/second", html_url := "https://example.test/second",
    description := none, language := none, stargazers_count := 0, forks_count := 0,
    topics := ["7"], fork := false, created_at := "2024-01-01T00:00:00Z",
    updated_at := "2024-01-15T00:00:00Z", pushed_at := "2024-01-15T00:00:00Z" }

/-- The two-repository list for the C3 counterexample. -/
def reposNumTopic : List GHRepo := [repoTopicA, repoTopic7]

/-- C3's ties-keep-first-seen-order conjunct, as stated, is false: with the
upstream list `reposNumTopic` the counter object receives `"a"` first and
`"7"` second (both ending at count 1), but `Object.entries` lists the
integer-index key `"7"` before `"a"`, and the stable count sort keeps that
order — the emitted tie order is `[("7", 1), ("a", 1)]`, not the first-seen
order `[("a", 1), ("7", 1)]`. -/
theorem tech_tie_order_not_first_seen :
    topicCountsMap reposNumTopic = [(("a" : String), 1), (("7" : String), 1)] ∧
      sortCountsDesc (techTopicCounts reposNumTopic) =
        [(("7" : String), 1), (("a" : String), 1)] := by
  constructor
  · rfl
  · have h1 : techTopicCounts reposNumTopic =
        [(("7" : String), 1), (("a" : String), 1)] := by
      show jsEntriesOrder (topicCountsMap reposNumTopic) = _
      rw [show topicCountsMap reposNumTopic =
        [(("a" : String), 1), (("7" : String), 1)] from rfl]
      unfold jsEntriesOrder
      rw [show ([(("a" : String), 1), (("7" : String), 1)] :
          List (String × Nat)).filter (fun p => isArrayIndexKey p.1) =
        [(("7" : String), 1)] from rfl]
      rw [show ([(("a" : String), 1), (("7" : String), 1)] :
          List (String × Nat)).filter (fun p => !isArrayIndexKey p.1) =
        [(("a" : String), 1)] from rfl]
      simp
    rw [h1]
    exact List.mergeSort_of_sorted (by decide)

/-- C3 amended: the tech-stack summary ignores forks (it is invariant under
dropping them up front); the language counters total exactly the number of
non-fork repos with a (JS-truthy) language, so a repo with a null/absent
language contributes to no language counter; the topic counters total
exactly the summed topic-list lengths of the non-fork repos, so a repo with
`N` topics contributes exactly `N` counter increments; neither emitted list
has a zero-count entry; both emitted lists are pairwise non-increasing in
count; restricted to any one count value both emitted lists keep the
`Object.entries` enumeration order of the counter object (integer-index
keys first in ascending numeric order, then first-seen order); and when no
counted key is an integer-index string, that enumeration — hence the tie
order — is exactly the first-seen (upstream) order originally claimed. -/
theorem tech_stack_summary_props (repos : List GHRepo) :
    (handleGetTechStackSummary repos =
        handleGetTechStackSummary (repos.filter (fun r => !r.fork))) ∧
      (sumCounts (techLangCounts repos) =
        (originalsOf repos).countP (fun r => (langKey r).isSome)) ∧
      (sumCounts (techTopicCounts repos) =
        ((originalsOf repos).map (fun r => r.topics.length)).sum) ∧
      (∀ p ∈ sortCountsDesc (techLangCounts repos), 1 ≤ p.2) ∧
      (∀ p ∈ sortCountsDesc (techTopicCounts repos), 1 ≤ p.2) ∧
      ((sortCountsDesc (techLangCounts repos)).Pairwise (fun x y => y.2 ≤ x.2)) ∧
      ((sortCountsDesc (techTopicCounts repos)).Pairwise (fun x y => y.2 ≤ x.2)) ∧
      (∀ c : Nat,
        (sortCountsDesc (techLangCounts repos)).filter (fun p => decide (p.2 = c)) =
          (techLangCounts repos).filter (fun p => decide (p.2 = c))) ∧
      (∀ c : Nat,
        (sortCountsDesc (techTopicCounts repos)).filter (fun p => decide (p.2 = c)) =
          (techTopicCounts repos).filter (fun p => decide (p.2 = c))) ∧
      ((∀ p ∈ langCountsMap repos, isArrayIndexKey p.1 = false) →
        techLangCounts repos = langCountsMap repos) ∧
      ((∀ p ∈ topicCountsMap repos, isArrayIndexKey p.1 = false) →
        techTopicCounts repos = topicCountsMap repos) := by
  refine ⟨?_, ?_, ?_, ?_, ?_, sortCountsDesc_sorted _, sortCountsDesc_sorted _,
    fun c => sortCountsDesc_stable _ c, fun c => sortCountsDesc_stable _ c,
    fun h => jsEntriesOrder_of_no_index h, fun h => jsEntriesOrder_of_no_index h⟩
  · simp only [handleGetTechStackSummary, techStackSummaryJson, techLangCounts,
      techTopicCounts, langCountsMap, topicCountsMap, originalsOf_filter]
  · rw [show sumCounts (techLangCounts repos) = sumCounts (langCountsMap repos) from
      sumCounts_jsEntriesOrder _]
    simpa [sumCounts] using sumCounts_foldl_stepLang (originalsOf repos) []
  · rw [show sumCounts (techTopicCounts repos) = sumCounts (topicCountsMap repos) from
      sumCounts_jsEntriesOrder _]
    simpa [sumCounts] using sumCounts_foldl_stepTopics (originalsOf repos) []
  · intro p hp
    have hmem : p ∈ techLangCounts repos := by simpa [sortCountsDesc] using hp
    exact @pos_foldl_stepLang (originalsOf repos) [] (by simp) p
      (mem_jsEntriesOrder.mp hmem)
  · intro p hp
    have hmem : p ∈ techTopicCounts repos := by simpa [sortCountsDesc] using hp
    exact @pos_foldl_stepTopics (originalsOf repos) [] (by simp) p
      (mem_jsEntriesOrder.mp hmem)

/-- Witness for the amended C3 at the concrete input `[soloRepo]`: the
emitted language entry `("TypeScript", 1)` and topic entry `("demo", 1)`
are in the outputs with positive counts, and — no key being an
integer-index string — the `Object.entries` enumerations are exactly the
first-seen insertion orders. -/
theorem tech_stack_summary_props_witness :
    (("TypeScript" : String), 1) ∈ sortCountsDesc (techLangCounts [soloRepo]) ∧
      1 ≤ ((("TypeScript" : String), 1) : String × Nat).2 ∧
      (("demo" : String), 1) ∈ sortCountsDesc (techTopicCounts [soloRepo]) ∧
      1 ≤ ((("demo" : String), 1) : String × Nat).2 ∧
      (∀ p ∈ topicCountsMap [soloRepo], isArrayIndexKey p.1 = false) ∧
      techTopicCounts [soloRepo] = topicCountsMap [soloRepo] := by
  have hl : (("TypeScript" : String), 1) ∈ sortCountsDesc (techLangCounts [soloRepo]) :=
    List.mem_mergeSort.mpr (mem_jsEntriesOrder.mpr (by decide))
  have ht : (("demo" : String), 1) ∈ sortCountsDesc (techTopicCounts [soloRepo]) :=
    List.mem_mergeSort.mpr (mem_jsEntriesOrder.mpr (by decide))
  exact ⟨hl, (tech_stack_summary_props [soloRepo]).2.2.2.1 _ hl,
    ht, (tech_stack_summary_props [soloRepo]).2.2.2.2.1 _ ht,
    by decide,
    (tech_stack_summary_props [soloRepo]).2.2.2.2.2.2.2.2.2.2 (by decide)⟩

/-! ### C10: per-entry count bounds -/

/-- A non-fork repository whose topic list repeats a topic. -/
def repoDupTopics : GHRepo :=
  { name := "dup", full_name := "o/dup", html_url := "https://example.test/dup",
    description := none, language := none, stargazers_count := 0, forks_count := 0,
    topics := ["t", "t"], fork := false, created_at := "2024-01-01T00:00:00Z",
    updated_at := "2024-01-02T00:00:00Z", pushed_at := "2024-01-02T00:00:00Z" }

/-- C10, as stated, is false: a repository whose topic list repeats a topic
makes that topic's counter exceed `total_original_repos` — at the input
`[repoDupTopics]`, whose single non-fork repo has topics `["t", "t"]`, the
output contains the topic entry `("t", 2)` while `total_original_repos`
is `1 < 2`. -/
theorem tech_topic_count_not_bounded :
    (("t" : String), 2) ∈ sortCountsDesc (techTopicCounts [repoDupTopics]) ∧
      (originalsOf [repoDupTopics]).length <
        ((("t" : String), 2) : String × Nat).2 := by
  constructor
  · have htc : techTopicCounts [repoDupTopics] = [(("t" : String), 2)] := by
      show jsEntriesOrder (topicCountsMap [repoDupTopics]) = _
      rw [show topicCountsMap [repoDupTopics] = [(("t" : String), 2)] from rfl]
      unfold jsEntriesOrder
      rw [show ([(("t" : String), 2)] : List (String × Nat)).filter
          (fun p => isArrayIndexKey p.1) = [] from rfl]
      rw [show ([(("t" : String), 2)] : List (String × Nat)).filter
          (fun p => !isArrayIndexKey p.1) = [(("t" : String), 2)] from rfl]
      simp
    rw [htc]
    simp [sortCountsDesc]
  · show (originalsOf [repoDupTopics]).length < 2
    decide

/-- C10 amended: the language counts always total at most
`total_original_repos` (each non-fork repo adds at most one language count);
and provided each repository's topic list has no duplicate (as the upstream
API guarantees), every topic entry's count is at most
`total_original_repos`. -/
theorem tech_stack_counts_bounded (repos : List GHRepo) :
    sumCounts (techLangCounts repos) ≤ (originalsOf repos).length ∧
      ((∀ r ∈ repos, r.topics.Nodup) →
        ∀ p ∈ sortCountsDesc (techTopicCounts repos),
          p.2 ≤ (originalsOf repos).length) := by
  constructor
  · have h := sumCounts_foldl_stepLang (originalsOf repos) []
    simp only [sumCounts, List.map_nil, List.sum_nil, Nat.zero_add] at h
    calc sumCounts (techLangCounts repos)
        = sumCounts (langCountsMap repos) := sumCounts_jsEntriesOrder _
      _ = (originalsOf repos).countP (fun r => (langKey r).isSome) := h
      _ ≤ (originalsOf repos).length := List.countP_le_length _
  · intro hnd p hp
    have hmem : p ∈ topicCountsMap repos :=
      mem_jsEntriesOrder.mp (by simpa [sortCountsDesc] using hp)
    have hkeys : (keysOf (topicCountsMap repos)).Nodup :=
      nodup_keys_foldl_stepTopics _ (by simp [keysOf])
    have hval : getCount (topicCountsMap repos) p.1 = p.2 := getCount_of_mem hkeys hmem
    rw [topicCountsMap, getCount_foldl_stepTopics] at hval
    simp only [getCount, Nat.zero_add] at hval
    have hb : ∀ x ∈ (originalsOf repos).map (fun r => r.topics.count p.1), x ≤ 1 := by
      intro x hx
      obtain ⟨r, hr, hrx⟩ := List.mem_map.mp hx
      have hrl : r ∈ repos := (List.mem_filter.mp hr).1
      exact hrx ▸ List.nodup_iff_count_le_one.mp (hnd r hrl) p.1
    have hsum := List.sum_le_card_nsmul _ 1 hb
    rw [List.length_map, smul_eq_mul, Nat.mul_one] at hsum
    omega

/-- A concrete repository list (two originals, one fork) whose topic lists
are duplicate-free. -/
def reposNodupEx : List GHRepo :=
  [{ name := "alpha", full_name := "o/alpha", html_url := "https://example.test/alpha",
     description := some "a cli tool", language := some "Go", stargazers_count := 3,
     forks_count := 0, topics := ["cli"], fork := false,
     created_at := "2024-01-01T00:00:00Z", updated_at := "2024-03-01T00:00:00Z",
     pushed_at := "2024-03-01T00:00:00Z" },
   { name := "beta", full_name := "o/beta", html_url := "https://example.test/beta",
     description := none, language := some "Go", stargazers_count := 1,
     forks_count := 0, topics := ["cli", "web"], fork := true,
     created_at := "2024-01-01T00:00:00Z", updated_at := "2024-02-01T00:00:00Z",
     pushed_at := "2024-02-01T00:00:00Z" },
   { name := "gamma", full_name := "o/gamma", html_url := "https://example.test/gamma",
     description := none, language := none, stargazers_count := 0,
     forks_count := 0, topics := [], fork := false,
     created_at := "2024-01-01T00:00:00Z", updated_at := "2024-01-15T00:00:00Z",
     pushed_at := "2024-01-15T00:00:00Z" }]

/-- Witness for the amended C10 at the concrete list `reposNodupEx`. -/
theorem tech_stack_counts_bounded_witness :
    (∀ r ∈ reposNodupEx, r.topics.Nodup) ∧
      ∀ p ∈ sortCountsDesc (techTopicCounts reposNodupEx),
        p.2 ≤ (originalsOf reposNodupEx).length :=
  ⟨by decide, (tech_stack_counts_bounded reposNodupEx).2 (by decide)⟩

/-! ## `search_repos` -/

/-- `needle` is a prefix of `haystack` (character lists). -/
def prefixOf : List Char → List Char → Bool
  | [], _ => true
  | _ :: _, [] => false
  | a :: as, b :: bs => a == b && prefixOf as bs

/-- `needle` occurs as a contiguous substring of `haystack`
(JS `String.prototype.includes`). -/
def hasSub (n : List Char) : List Char → Bool
  | [] => n.isEmpty
  | c :: t => prefixOf n (c :: t) || hasSub n t

/-- JS `hay.includes(needle)`. -/
def strIncludes (hay needle : String) : Bool := hasSub needle.toList hay.toList

/-- The `search_repos` match predicate: the lowercased query occurs in the
lowercased name, or in the lowercased description (an absent description
never matches), or in some lowercased topic.  `lower` is the host runtime's
Unicode `String.prototype.toLowerCase` primitive, passed in like the other
runtime effects — the handler's logic does not depend on which mapping it
is. -/
def matchesQuery (lower : String → String) (query : String) (r : GHRepo) : Bool :=
  strIncludes (lower r.name) (lower query) ||
    (match r.description with
     | some d => strIncludes (lower d) (lower query)
     | none => false) ||
    r.topics.any (fun t => strIncludes (lower t) (lower query))

/-- `repos.filter(...)` with the match predicate. -/
def searchMatches (lower : String → String) (repos : List GHRepo) (query : String) :
    List GHRepo :=
  repos.filter (matchesQuery lower query)

/-- The per-match projection serialized by `handleSearchRepos`. -/
def projectSearchResult (r : GHRepo) : Json :=
  .obj [("name", .str r.name), ("description", jsonOfOptStr r.description),
        ("language", jsonOfOptStr r.language), ("url", .str r.html_url)]

/-- `handleSearchRepos`, given the host lowercasing primitive and the
already-fetched repository page. -/
def handleSearchRepos (lower : String → String) (repos : List GHRepo)
    (query : String) : String :=
  let found := searchMatches lower repos query
  if 0 < found.length then
    jsonStringify (.arr (found.map projectSearchResult))
  else
    "No repositories matched \"" ++ query ++ "\"."

/-- C4: for every lowercasing primitive (in particular the host's Unicode
`toLowerCase`), the matches are exactly the repositories satisfying the
lowercased substring predicate over name / description / topics, kept in
upstream relative order; a non-empty match list is serialized as the
projected JSON array; an empty match list yields exactly the no-match
sentence with the query interpolated verbatim. -/
theorem search_repos_spec (lower : String → String) (repos : List GHRepo)
    (query : String) :
    (∀ r, r ∈ searchMatches lower repos query ↔
        r ∈ repos ∧ matchesQuery lower query r = true) ∧
      (searchMatches lower repos query).Sublist repos ∧
      (searchMatches lower repos query ≠ [] →
        handleSearchRepos lower repos query =
          jsonStringify
            (.arr ((searchMatches lower repos query).map projectSearchResult))) ∧
      (searchMatches lower repos query = [] →
        handleSearchRepos lower repos query =
          "No repositories matched \"" ++ query ++ "\".") := by
  refine ⟨fun r => List.mem_filter, List.filter_sublist _, fun h => ?_, fun h => ?_⟩
  · have hl : 0 < (searchMatches lower repos query).length := List.length_pos.mpr h
    simp [handleSearchRepos, hl]
  · simp [handleSearchRepos, h]

/-- Witness for C4 at a concrete lowercasing, repository list and query:
the query `"zzz"` matches nothing in `reposNodupEx`, and the output is
exactly the no-match sentence. -/
theorem search_repos_spec_witness :
    searchMatches toLowerStr reposNodupEx "zzz" = [] ∧
      handleSearchRepos toLowerStr reposNodupEx "zzz" =
        "No repositories matched \"zzz\"." :=
  ⟨by decide, (search_repos_spec toLowerStr reposNodupEx "zzz").2.2.2 (by decide)⟩

/-! ## `get_languages`

The upstream `/languages` endpoint returns a JS object mapping language name
to byte count; `Object.entries` of it is modelled as an association list in
its iteration order.  The JS float expression
`((bytes / total) * 100).toFixed(1)` is modelled exactly over `ℚ`:
`toFixed(1)` rounds to the nearest tenth, half away from zero, which for the
non-negative values here is `⌊x·10 + 1/2⌋` tenths. -/

/-- `(bytes / total * 100)` rounded half-up to tenths:
`⌊(1000·bytes + total/2) / total⌋ = (2000·bytes + total) / (2·total)`. -/
def roundTenths (bytes total : Nat) : Nat := (2000 * bytes + total) / (2 * total)

/-- Print a tenths count the way `toFixed(1)` prints the value, with the
trailing `%`. -/
def fmtTenths (t : Nat) : String := toString (t / 10) ++ "." ++ toString (t % 10) ++ "%"

/-- The `percentage` field: formatted rounded percentage, or the literal
`"0%"` when the byte total is zero. -/
def percentageStr (bytes total : Nat) : String :=
  if 0 < total then fmtTenths (roundTenths bytes total) else "0%"

/-- The value serialized by `handleGetLanguages`. -/
def languagesBreakdownJson (langs : List (String × Nat)) : Json :=
  .arr (langs.map (fun p =>
    .obj [("language", .str p.1), ("bytes", .num p.2),
          ("percentage", .str (percentageStr p.2 ((langs.map (fun q => q.2)).sum)))]))

/-- `handleGetLanguages`, given the already-fetched language map entries. -/
def handleGetLanguages (langs : List (String × Nat)) : String :=
  jsonStringify (languagesBreakdownJson langs)

/-- The rounded percentage is within half a tenth of the exact percentage. -/
theorem roundTenths_approx {b t : Nat} (ht : 0 < t) :
    |(roundTenths b t : ℚ) / 10 - 100 * b / t| ≤ 1 / 20 := by
  have hmod := Nat.mod_add_div (2000 * b + t) (2 * t)
  have hlt : (2000 * b + t) % (2 * t) < 2 * t := Nat.mod_lt _ (by omega)
  have h1 : 2 * t * roundTenths b t ≤ 2000 * b + t := by
    unfold roundTenths; omega
  have h2 : 2000 * b + t < 2 * t * roundTenths b t + 2 * t := by
    unfold roundTenths; omega
  have ht' : (0 : ℚ) < t := by exact_mod_cast ht
  have e1 : (roundTenths b t : ℚ) / 10 - 100 * b / t =
      ((2 * t * roundTenths b t : ℚ) - 2000 * b) / (20 * t) := by
    field_simp
    ring
  rw [e1, abs_div, abs_of_pos (by positivity : (0 : ℚ) < 20 * t),
    div_le_iff₀ (by positivity : (0 : ℚ) < 20 * t)]
  have h1' : (2 * t * roundTenths b t : ℚ) ≤ 2000 * b + t := by exact_mod_cast h1
  have h2' : (2000 * b + t : ℚ) < 2 * t * roundTenths b t + 2 * t := by exact_mod_cast h2
  rw [abs_le]
  constructor <;> [push_cast; push_cast] <;> linarith

/-- Triangle-inequality bound for sums of pointwise-close lists. -/
theorem sum_approx {α : Type} (f g : α → ℚ) (ε : ℚ) :
    ∀ l : List α, (∀ a ∈ l, |f a - g a| ≤ ε) →
      |(l.map f).sum - (l.map g).sum| ≤ l.length * ε
  | [], _ => by simp
  | a :: l, h => by
      simp only [List.map_cons, List.sum_cons, List.length_cons]
      have h1 := h a (List.mem_cons_self _ _)
      have h2 := sum_approx f g ε l (fun x hx => h x (List.mem_cons_of_mem _ hx))
      calc |f a + (l.map f).sum - (g a + (l.map g).sum)|
          = |(f a - g a) + ((l.map f).sum - (l.map g).sum)| := by ring_nf
        _ ≤ |f a - g a| + |(l.map f).sum - (l.map g).sum| := abs_add _ _
        _ ≤ ε + l.length * ε := add_le_add h1 h2
        _ = ((l.length + 1 : Nat) : ℚ) * ε := by push_cast; ring

/-- The exact percentages sum to `100 · (Σ bytes) / T`. -/
theorem sum_map_exact_pct (l : List (String × Nat)) (T : ℚ) :
    (l.map (fun p => 100 * (p.2 : ℚ) / T)).sum =
      100 * (((l.map (fun q => q.2)).sum : Nat) : ℚ) / T := by
  induction l with
  | nil => simp
  | cons a l ih =>
    simp only [List.map_cons, List.sum_cons, ih]
    push_cast
    ring

/-- C5: when the byte total is zero every `percentage` field is exactly
`"0%"`; when it is positive, each entry's `percentage` is the rounded
one-decimal percentage of its byte count (within half a tenth of the exact
value) and the rounded percentages sum to `100` up to one-decimal rounding
error (`1/20` per entry). -/
theorem get_languages_percentages (langs : List (String × Nat)) :
    ((langs.map (fun q => q.2)).sum = 0 →
        ∀ p ∈ langs, percentageStr p.2 ((langs.map (fun q => q.2)).sum) = "0%") ∧
      (0 < (langs.map (fun q => q.2)).sum →
        (∀ p ∈ langs,
          percentageStr p.2 ((langs.map (fun q => q.2)).sum) =
            fmtTenths (roundTenths p.2 ((langs.map (fun q => q.2)).sum)) ∧
          |(roundTenths p.2 ((langs.map (fun q => q.2)).sum) : ℚ) / 10 -
              100 * p.2 / ((langs.map (fun q => q.2)).sum)| ≤ 1 / 20) ∧
        |(langs.map (fun p =>
            (roundTenths p.2 ((langs.map (fun q => q.2)).sum) : ℚ) / 10)).sum - 100| ≤
          langs.length * (1 / 20)) := by
  constructor
  · intro h0 p _
    simp [percentageStr, h0]
  · intro hT
    have hT' : (0 : ℚ) < (((langs.map (fun q => q.2)).sum : Nat) : ℚ) := by
      exact_mod_cast hT
    constructor
    · intro p _
      refine ⟨by simp [percentageStr, hT], roundTenths_approx hT⟩
    · have happrox := sum_approx
        (fun p : String × Nat => (roundTenths p.2 ((langs.map (fun q => q.2)).sum) : ℚ) / 10)
        (fun p : String × Nat => 100 * (p.2 : ℚ) / ((langs.map (fun q => q.2)).sum))
        (1 / 20) langs (fun p _ => roundTenths_approx hT)
      have hexact : (langs.map
          (fun p : String × Nat => 100 * (p.2 : ℚ) / ((langs.map (fun q => q.2)).sum))).sum =
          100 := by
        rw [sum_map_exact_pct, mul_div_assoc, div_self (ne_of_gt hT'), mul_one]
      rw [hexact] at happrox
      exact happrox

/-- Witness for C5 at a concrete language map with positive total. -/
theorem get_languages_percentages_witness :
    (0 < ((([("TypeScript", 600), ("Python", 400)] : List (String × Nat)).map
        (fun q => q.2)).sum) ∧
      |(([("TypeScript", 600), ("Python", 400)] : List (String × Nat)).map (fun p =>
          (roundTenths p.2 ((([("TypeScript", 600), ("Python", 400)] :
            List (String × Nat)).map (fun q => q.2)).sum) : ℚ) / 10)).sum - 100| ≤
        ([("TypeScript", 600), ("Python", 400)] : List (String × Nat)).length * (1 / 20)) :=
  ⟨by decide,
    ((get_languages_percentages [("TypeScript", 600), ("Python", 400)]).2 (by decide)).2⟩

/-! ## `get_repo_details` -/

/-- Outcome of the README raw fetch: `ok` when `fetch` resolved with
`res.ok`, `httpError` when it resolved non-2xx, `networkError` when it (or
reading the body) threw — the `try`/`catch` around the sub-fetch. -/
inductive ReadmeOutcome where
  | ok : String → ReadmeOutcome
  | httpError : ReadmeOutcome
  | networkError : ReadmeOutcome
deriving DecidableEq

/-- The README text the handler ends up with: the fetched body on success,
the fallback literal otherwise (`let readme = "(No README found)"` is only
overwritten when `readmeRes.ok`). -/
def readmeText : ReadmeOutcome → String
  | .ok t => t
  | .httpError => "(No README found)"
  | .networkError => "(No README found)"

/-- The detail projection serialized by `handleGetRepoDetails`. -/
def repoDetailsJson (repo : GHRepo) : Json :=
  .obj [("name", .str repo.name), ("full_name", .str repo.full_name),
        ("description", jsonOfOptStr repo.description),
        ("language", jsonOfOptStr repo.language),
        ("stars", .num repo.stargazers_count), ("forks", .num repo.forks_count),
        ("topics", .arr (repo.topics.map Json.str)), ("url", .str repo.html_url),
        ("created", .str repo.created_at), ("updated", .str repo.updated_at),
        ("pushed", .str repo.pushed_at)]

/-- `handleGetRepoDetails` given the fetched repository and the README
outcome. -/
def handleGetRepoDetails (repo : GHRepo) (readme : ReadmeOutcome) : String :=
  "## Repository: " ++ repo.name ++ "\n\n" ++ jsonStringify (repoDetailsJson repo) ++
    "\n\n## README\n\n" ++ readmeText readme

/-- `handleGetRepoDetails` including the fallible main repository fetch
(`ghFetch` throws on non-2xx; the error string models `String(err)`). -/
def handleGetRepoDetailsE (repoFetch : Except String GHRepo) (readme : ReadmeOutcome) :
    Except String String := do
  let repo ← repoFetch
  pure (handleGetRepoDetails repo readme)

/-- C6: the call's success depends only on the main repository fetch — the
README sub-fetch never aborts it — and whenever the README sub-fetch fails
(non-2xx or thrown), the output ends in a README section that is exactly the
literal `(No README found)`. -/
theorem repo_details_readme_fallback (repo : GHRepo) (o : ReadmeOutcome) :
    (∀ (rf : Except String GHRepo) (o' : ReadmeOutcome),
        (handleGetRepoDetailsE rf o').isOk = rf.isOk) ∧
      ((∀ t, o ≠ ReadmeOutcome.ok t) →
        handleGetRepoDetailsE (.ok repo) o =
          .ok ("## Repository: " ++ repo.name ++ "\n\n" ++
            jsonStringify (repoDetailsJson repo) ++ "\n\n## README\n\n" ++
            "(No README found)")) := by
  constructor
  · intro rf o'
    cases rf <;> rfl
  · intro h
    cases o with
    | ok t => exact absurd rfl (h t)
    | httpError => rfl
    | networkError => rfl

/-- Witness for C6: a concrete repository whose README fetch returned
non-2xx still succeeds, with the fallback README section. -/
theorem repo_details_readme_fallback_witness :
    (∀ t, ReadmeOutcome.httpError ≠ ReadmeOutcome.ok t) ∧
      handleGetRepoDetailsE (.ok repoDupTopics) ReadmeOutcome.httpError =
        .ok ("## Repository: " ++ repoDupTopics.name ++ "\n\n" ++
          jsonStringify (repoDetailsJson repoDupTopics) ++ "\n\n## README\n\n" ++
          "(No README found)") :=
  ⟨fun _ h => ReadmeOutcome.noConfusion h,
    (repo_details_readme_fallback repoDupTopics ReadmeOutcome.httpError).2
      (fun _ h => ReadmeOutcome.noConfusion h)⟩

/-! ## `get_profile` -/

/-- The profile projection serialized by `handleGetProfile`. -/
def profileJson (u : GHUser) : Json :=
  .obj [("username", .str u.login), ("name", jsonOfOptStr u.name),
        ("bio", jsonOfOptStr u.bio), ("location", jsonOfOptStr u.location),
        ("company", jsonOfOptStr u.company), ("website", .str u.blog),
        ("avatar", .str u.avatar_url), ("github_url", .str u.html_url),
        ("public_repos", .num u.public_repos), ("followers", .num u.followers),
        ("following", .num u.following)]

/-- `handleGetProfile`, given the already-fetched user object. -/
def handleGetProfile (u : GHUser) : String := jsonStringify (profileJson u)

/-! ## Tool registry and the HTTP proxy `POST /call/:tool` route -/

/-- The ambient runtime environment of one call: a snapshot of the upstream
API as the six handlers consume it over the network, plus the host's
Unicode `String.prototype.toLowerCase` primitive (`lower`).  Each
`Except String` carries, on failure, the stringified thrown error
(JS `String(err)`).  `reposSorted` is the `?per_page=100&sort=updated` page
used by `list_repos`; `repos` is the `?per_page=100` page used by
`search_repos` and `get_tech_stack_summary`. -/
structure Upstream where
  reposSorted : Except String (List GHRepo)
  repos : Except String (List GHRepo)
  repoByName : String → Except String GHRepo
  languagesByName : String → Except String (List (String × Nat))
  readmeByName : String → ReadmeOutcome
  user : Except String GHUser
  lower : String → String

/-- A parsed JSON request-body object (`Record<string, unknown>`). -/
abbrev JsonObj := List (String × Json)

/-- JS property lookup `o[k]` (first binding wins), `none` for absent. -/
def jlookup (o : JsonObj) (k : String) : Option Json :=
  (o.find? (fun p => p.1 == k)).map (fun p => p.2)

/-- JS truthiness of a possibly-absent value (`undefined`, `null`, `false`,
`0`, and the empty string are falsy). -/
def jsTruthy : Option Json → Bool
  | none => false
  | some .null => false
  | some (.bool b) => b
  | some (.num n) => decide (n ≠ 0)
  | some (.str s) => !s.isEmpty
  | some (.arr _) => true
  | some (.obj _) => true

/-- The `sort` argument as the handler tests it: strict equality against
`"stars"` and `"name"`; anything else behaves as the default `updated`. -/
def decodeSortArg : Option Json → SortKey
  | some (.str "stars") => SortKey.stars
  | some (.str "name") => SortKey.name
  | _ => SortKey.updated

mutual

/-- JS template-literal coercion of a value to a string, as
`/repos/u/$\x7bargs.repo_name\x7d` performs on an unchecked argument. -/
def jsTemplateStr : Json → String
  | .null => "null"
  | .bool true => "true"
  | .bool false => "false"
  | .num n => toString n
  | .str s => s
  | .arr xs => jsTemplateArr xs
  | .obj _ => "[object Object]"

/-- JS `Array.prototype.toString`: elements joined by commas, `null`
elements becoming empty. -/
def jsTemplateArr : List Json → String
  | [] => ""
  | x :: rest =>
      (match x with
       | .null => ""
       | v => jsTemplateStr v) ++
      (match rest with
       | [] => ""
       | y :: t => "," ++ jsTemplateArr (y :: t))

end

/-- The `repo_name` argument as interpolated into the request path
(an absent property interpolates as `undefined`). -/
def decodeRepoName (o : JsonObj) : String :=
  match jlookup o "repo_name" with
  | none => "undefined"
  | some v => jsTemplateStr v

/-- The `list_repos` registry adapter:
`(a) => handleListRepos(a as ...)` — the fetch happens first, then the
unchecked arguments are read by truthiness / strict equality. -/
def regListRepos (u : Upstream) (o : JsonObj) : Except String String := do
  let repos ← u.reposSorted
  pure (handleListRepos repos (jsTruthy (jlookup o "include_forks"))
    (decodeSortArg (jlookup o "sort")))

/-- The `get_repo_details` registry adapter. -/
def regGetRepoDetails (u : Upstream) (o : JsonObj) : Except String String := do
  let repo ← u.repoByName (decodeRepoName o)
  pure (handleGetRepoDetails repo (u.readmeByName (decodeRepoName o)))

/-- The `get_languages` registry adapter. -/
def regGetLanguages (u : Upstream) (o : JsonObj) : Except String String := do
  let langs ← u.languagesByName (decodeRepoName o)
  pure (handleGetLanguages langs)

/-- The `get_profile` registry adapter (ignores its arguments). -/
def regGetProfile (u : Upstream) (_ : JsonObj) : Except String String := do
  let user ← u.user
  pure (handleGetProfile user)

/-- The `search_repos` registry adapter: after the fetch,
`args.query.toLowerCase()` throws a `TypeError` unless `query` is a
string. -/
def regSearchRepos (u : Upstream) (o : JsonObj) : Except String String := do
  let repos ← u.repos
  match jlookup o "query" with
  | some (.str s) => pure (handleSearchRepos u.lower repos s)
  | _ => throw "TypeError: args.query.toLowerCase is not a function"

/-- The `get_tech_stack_summary` registry adapter (ignores its
arguments). -/
def regGetTechStack (u : Upstream) (_ : JsonObj) : Except String String := do
  let repos ← u.repos
  pure (handleGetTechStackSummary repos)

/-- `TOOL_REGISTRY`: the six tool names bound to their handlers, in source
order. -/
def TOOL_REGISTRY (u : Upstream) : List (String × (JsonObj → Except String String)) :=
  [("list_repos", regListRepos u),
   ("get_repo_details", regGetRepoDetails u),
   ("get_languages", regGetLanguages u),
   ("get_profile", regGetProfile u),
   ("search_repos", regSearchRepos u),
   ("get_tech_stack_summary", regGetTechStack u)]

/-- The own-property keys of `Object.prototype`, which the object literal
`TOOL_REGISTRY` inherits: for each of these names `k` that is not a
registry key, `TOOL_REGISTRY[k]` yields a truthy inherited value (a
function, or for `__proto__` the prototype object) instead of
`undefined`. -/
def OBJECT_PROTOTYPE_KEYS : List String :=
  ["constructor", "hasOwnProperty", "isPrototypeOf", "propertyIsEnumerable",
   "toLocaleString", "toString", "valueOf", "__defineGetter__",
   "__defineSetter__", "__lookupGetter__", "__lookupSetter__", "__proto__"]

/-- The result of the property access `TOOL_REGISTRY[toolName]`: an own
property (a registered handler), an inherited `Object.prototype` property
(truthy, so `if (!handler)` does not fire), or `undefined`. -/
inductive ToolLookup where
  | own : (JsonObj → Except String String) → ToolLookup
  | inherited : String → ToolLookup
  | absent : ToolLookup

/-- `TOOL_REGISTRY[toolName]`: own-property lookup first, then the
`Object.prototype` chain; never an exception. -/
def findTool (registry : List (String × (JsonObj → Except String String)))
    (toolName : String) : ToolLookup :=
  match registry.find? (fun p => p.1 == toolName) with
  | some p => .own p.2
  | none =>
      if OBJECT_PROTOTYPE_KEYS.contains toolName then .inherited toolName
      else .absent

/-- The result of `await handler(args)` when `handler` is the inherited
`Object.prototype` member `k`, called as a plain function (`this` is
`undefined`): `toString` returns the string `"[object Undefined]"`;
`constructor` is the `Object` function, which returns its object argument;
`__proto__` yields the (non-callable) prototype object, so the call throws
`TypeError: handler is not a function`; every other member begins by
coercing `this` with `ToObject` and throws a `TypeError`. -/
def protoMemberCall (k : String) (args : JsonObj) : Except String Json :=
  if k = "toString" then .ok (.str "[object Undefined]")
  else if k = "constructor" then .ok (.obj args)
  else if k = "__proto__" then .error "TypeError: handler is not a function"
  else .error "TypeError: Cannot convert undefined or null to object"

/-- An HTTP response of the proxy: status code and JSON body. -/
structure HttpResponse where
  status : Nat
  body : Json

/-- The 200 envelope `\x7bcontent: [\x7btype: "text", text\x7d]\x7d`; the
`text` value is a string for the registered tools, but an inherited
`constructor` call puts the argument object there. -/
def contentEnvelope (text : Json) : Json :=
  .obj [("content", .arr [.obj [("type", .str "text"), ("text", text)]])]

/-- The `POST /call/:tool` route: `undefined` lookup → 404 with the
available names; a registered handler → 500 with the stringified error on
failure, 200 with the text content envelope on success; an inherited
`Object.prototype` value is truthy, so the route calls it inside the same
`try` — 200 or 500 per `protoMemberCall`; a body without `args` uses
`\x7b\x7d`. -/
def routeCallTool (registry : List (String × (JsonObj → Except String String)))
    (toolName : String) (args? : Option JsonObj) : HttpResponse :=
  match findTool registry toolName with
  | .absent =>
      ⟨404, .obj [("error", .str ("Unknown tool: " ++ toolName)),
                  ("available", .arr (registry.map (fun p => Json.str p.1)))]⟩
  | .own handler =>
      match handler (args?.getD []) with
      | .error e => ⟨500, .obj [("error", .str e)]⟩
      | .ok text => ⟨200, contentEnvelope (.str text)⟩
  | .inherited k =>
      match protoMemberCall k (args?.getD []) with
      | .error e => ⟨500, .obj [("error", .str e)]⟩
      | .ok v => ⟨200, contentEnvelope v⟩

/-- A key is found by `find?` on the registry exactly when it is among the
registry's names. -/
theorem find_key_none_iff_contains
    (registry : List (String × (JsonObj → Except String String))) (t : String) :
    (registry.find? (fun p => p.1 == t) = none) ↔
      (registry.map (fun p => p.1)).contains t = false := by
  induction registry with
  | nil => simp
  | cons q l ih =>
    rw [List.find?_cons, List.map_cons, List.contains_cons]
    by_cases h : q.1 = t
    · have hb : (q.1 == t) = true := beq_iff_eq.mpr h
      have hb2 : (t == q.1) = true := beq_iff_eq.mpr h.symm
      simp [hb, hb2]
    · have hb : (q.1 == t) = false := beq_eq_false_iff_ne.mpr h
      have hb2 : (t == q.1) = false := beq_eq_false_iff_ne.mpr (fun hh => h hh.symm)
      simp [hb, hb2, ih]

/-- The lookup is `undefined` exactly when the name is neither a registry
name nor an inherited `Object.prototype` property name. -/
theorem findTool_absent_iff
    (registry : List (String × (JsonObj → Except String String))) (t : String) :
    findTool registry t = ToolLookup.absent ↔
      ((registry.map (fun p => p.1)).contains t = false ∧
        OBJECT_PROTOTYPE_KEYS.contains t = false) := by
  unfold findTool
  cases hf : registry.find? (fun p => p.1 == t) with
  | some p =>
    refine iff_of_false (fun h => ToolLookup.noConfusion h) (fun h => ?_)
    rw [(find_key_none_iff_contains registry t).mpr h.1] at hf
    cases hf
  | none =>
    have hc := (find_key_none_iff_contains registry t).mp hf
    by_cases hk : OBJECT_PROTOTYPE_KEYS.contains t = true
    · rw [if_pos hk]
      refine iff_of_false (fun h => ToolLookup.noConfusion h) (fun h => ?_)
      exact absurd (hk.symm.trans h.2) (by decide)
    · rw [if_neg hk]
      exact iff_of_true rfl ⟨hc, Bool.eq_false_iff.mpr hk⟩

/-- C7 amended: the registry's names are exactly the six tool names; the
lookup is `undefined` — and the route answers 404 with an `error` field and
the `available` name list, consulting no handler — exactly when the name is
neither a registry name nor an inherited `Object.prototype` property name;
for a registered handler, failure yields 500 with the stringified error and
success yields 200 with the single-part text content envelope; for an
inherited `Object.prototype` name the truthy inherited value is called
instead — 500 with the `TypeError` when that call throws, 200 with its
result in the envelope when it returns; and a missing `args` field behaves
exactly as `args = \x7b\x7d`. -/
theorem http_call_route_spec (u : Upstream) (toolName : String) (body : Option JsonObj) :
    ((TOOL_REGISTRY u).map (fun p => p.1) =
        ["list_repos", "get_repo_details", "get_languages", "get_profile",
         "search_repos", "get_tech_stack_summary"]) ∧
      (findTool (TOOL_REGISTRY u) toolName = ToolLookup.absent ↔
        (((TOOL_REGISTRY u).map (fun p => p.1)).contains toolName = false ∧
          OBJECT_PROTOTYPE_KEYS.contains toolName = false)) ∧
      (findTool (TOOL_REGISTRY u) toolName = ToolLookup.absent →
        routeCallTool (TOOL_REGISTRY u) toolName body =
          ⟨404, .obj [("error", .str ("Unknown tool: " ++ toolName)),
            ("available", .arr ((TOOL_REGISTRY u).map (fun p => Json.str p.1)))]⟩) ∧
      (∀ h e, findTool (TOOL_REGISTRY u) toolName = ToolLookup.own h →
        h (body.getD []) = .error e →
        routeCallTool (TOOL_REGISTRY u) toolName body =
          ⟨500, .obj [("error", .str e)]⟩) ∧
      (∀ h t, findTool (TOOL_REGISTRY u) toolName = ToolLookup.own h →
        h (body.getD []) = .ok t →
        routeCallTool (TOOL_REGISTRY u) toolName body =
          ⟨200, contentEnvelope (.str t)⟩) ∧
      (∀ k e, findTool (TOOL_REGISTRY u) toolName = ToolLookup.inherited k →
        protoMemberCall k (body.getD []) = .error e →
        routeCallTool (TOOL_REGISTRY u) toolName body =
          ⟨500, .obj [("error", .str e)]⟩) ∧
      (∀ k v, findTool (TOOL_REGISTRY u) toolName = ToolLookup.inherited k →
        protoMemberCall k (body.getD []) = .ok v →
        routeCallTool (TOOL_REGISTRY u) toolName body =
          ⟨200, contentEnvelope v⟩) ∧
      (body = none →
        routeCallTool (TOOL_REGISTRY u) toolName body =
          routeCallTool (TOOL_REGISTRY u) toolName (some [])) := by
  refine ⟨rfl, findTool_absent_iff _ toolName, fun hf => ?_, fun h e hf he => ?_,
    fun h t hf ht => ?_, fun k e hf he => ?_, fun k v hf hv => ?_, fun hb => ?_⟩
  · simp [routeCallTool, hf]
  · simp [routeCallTool, hf, he]
  · simp [routeCallTool, hf, ht]
  · simp [routeCallTool, hf, he]
  · simp [routeCallTool, hf, hv]
  · subst hb
    rfl

/-- A concrete upstream snapshot: repository pages succeed, the per-repo
detail fetch fails, the user fetch fails. -/
def upstreamEx : Upstream :=
  { reposSorted := .ok reposNodupEx,
    repos := .ok reposNodupEx,
    repoByName := fun _ =>
      .error "Error: GitHub API 404: Not Found — /repos/bdbrown4/missing",
    languagesByName := fun _ => .ok [("TypeScript", 600), ("Python", 400)],
    readmeByName := fun _ => ReadmeOutcome.httpError,
    user := .error "Error: GitHub API 500: Internal Server Error — /users/bdbrown4",
    lower := toLowerStr }

/-- C7, as stated, is false: `"toString"` is not among the six registry
names, yet `POST /call/toString` does not answer 404 — the property access
`TOOL_REGISTRY["toString"]` finds the truthy inherited
`Object.prototype.toString`, the route calls it, and the response is 200
with `"[object Undefined]"` in the envelope. -/
theorem http_call_unknown_not_always_404 :
    ((TOOL_REGISTRY upstreamEx).map (fun p => p.1)).contains "toString" = false ∧
      routeCallTool (TOOL_REGISTRY upstreamEx) "toString" none =
        ⟨200, contentEnvelope (.str "[object Undefined]")⟩ :=
  ⟨rfl, rfl⟩

/-- Witness for the amended C7: the four response shapes at concrete
requests against `upstreamEx` — name in neither the registry nor
`Object.prototype` → 404, failing registered handler (`get_profile`) → 500,
succeeding registered handler (`get_tech_stack_summary`) → 200, and the
inherited `"valueOf"` → 500 with a `TypeError`. -/
theorem http_call_route_spec_witness :
    (routeCallTool (TOOL_REGISTRY upstreamEx) "does_not_exist" none =
        ⟨404, .obj [("error", .str ("Unknown tool: " ++ "does_not_exist")),
          ("available", .arr ((TOOL_REGISTRY upstreamEx).map (fun p => Json.str p.1)))]⟩) ∧
      (routeCallTool (TOOL_REGISTRY upstreamEx) "get_profile" none =
        ⟨500, .obj [("error",
          .str "Error: GitHub API 500: Internal Server Error — /users/bdbrown4")]⟩) ∧
      (routeCallTool (TOOL_REGISTRY upstreamEx) "get_tech_stack_summary" (some []) =
        ⟨200, contentEnvelope (.str (handleGetTechStackSummary reposNodupEx))⟩) ∧
      (routeCallTool (TOOL_REGISTRY upstreamEx) "valueOf" none =
        ⟨500, .obj [("error",
          .str "TypeError: Cannot convert undefined or null to object")]⟩) :=
  ⟨(http_call_route_spec upstreamEx "does_not_exist" none).2.2.1 rfl,
    (http_call_route_spec upstreamEx "get_profile" none).2.2.2.1
      (regGetProfile upstreamEx)
      "Error: GitHub API 500: Internal Server Error — /users/bdbrown4" rfl rfl,
    (http_call_route_spec upstreamEx "get_tech_stack_summary" (some [])).2.2.2.2.1
      (regGetTechStack upstreamEx) (handleGetTechStackSummary reposNodupEx) rfl rfl,
    (http_call_route_spec upstreamEx "valueOf" none).2.2.2.2.2.1
      "valueOf" "TypeError: Cannot convert undefined or null to object" rfl rfl⟩

/-! ## Startup transport selection -/

/-- The two transports. -/
inductive Transport where
  | stdio : Transport
  | http : Transport
deriving DecidableEq

/-- The environment variables the startup code reads (besides the GitHub
account/token, which do not affect transport selection).  `none` models an
unset variable; `some s` a variable set to `s` (possibly empty). -/
structure Env where
  railwayEnvironment : Option String
  render : Option String
  flyAppName : Option String
  port : Option String
deriving DecidableEq

/-- `RAILWAY_ENVIRONMENT ?? RENDER ?? FLY_APP_NAME ?? PORT`: the first
present (non-`undefined`) value — an empty string is present and stops the
chain. -/
def cloudChainVal (e : Env) : Option String :=
  match e.railwayEnvironment with
  | some s => some s
  | none =>
    match e.render with
    | some s => some s
    | none =>
      match e.flyAppName with
      | some s => some s
      | none => e.port

/-- JS truthiness of a string. -/
def strTruthy (s : String) : Bool := !s.isEmpty

/-- JS truthiness of a possibly-absent string. -/
def optStrTruthy : Option String → Bool
  | some s => strTruthy s
  | none => false

/-- `IS_CLOUD = !!(RAILWAY_ENVIRONMENT ?? RENDER ?? FLY_APP_NAME ?? PORT)`. -/
def IS_CLOUD (e : Env) : Bool :=
  match cloudChainVal e with
  | some s => strTruthy s
  | none => false

/-- A JS number that may be `NaN` (the `parseInt` failure value). -/
inductive JsNumber where
  | nan : JsNumber
  | int : Int → JsNumber
deriving DecidableEq

/-- The leading decimal digits of a character list. -/
def leadDigits (cs : List Char) : List Char := cs.takeWhile isDigitCh

/-- `parseInt(s, 10)`: skip leading whitespace, take an optional sign and
the leading run of decimal digits; no digits → `NaN`. -/
def parseIntJS (s : String) : JsNumber :=
  let cs := s.toList.dropWhile (fun c => c == ' ' || c == '\t' || c == '\n' || c == '\r')
  match cs with
  | '-' :: rest =>
      if (leadDigits rest).isEmpty then .nan
      else .int (-(decimalVal (leadDigits rest) : Int))
  | '+' :: rest =>
      if (leadDigits rest).isEmpty then .nan else .int (decimalVal (leadDigits rest))
  | rest =>
      if (leadDigits rest).isEmpty then .nan else .int (decimalVal (leadDigits rest))

/-- The value of the `PORT` constant: `number | null`, where the number may
be `NaN`. -/
inductive PortVal where
  | null : PortVal
  | nan : PortVal
  | num : Int → PortVal
deriving DecidableEq

/-- `PORT = process.env.PORT ? parseInt(process.env.PORT, 10)
: (IS_CLOUD ? 3000 : null)`. -/
def PORT (e : Env) : PortVal :=
  match e.port with
  | some s =>
      if strTruthy s then
        match parseIntJS s with
        | .nan => .nan
        | .int n => .num n
      else if IS_CLOUD e then .num 3000 else .null
  | none => if IS_CLOUD e then .num 3000 else .null

/-- JS truthiness of the `PORT` value (`null`, `NaN` and `0` are falsy). -/
def portTruthy : PortVal → Bool
  | .num n => decide (n ≠ 0)
  | _ => false

/-- `main()`: `if (PORT) await startHttp(); else await startStdio();`. -/
def selectTransport (e : Env) : Transport :=
  if portTruthy (PORT e) then .http else .stdio

/-- "Some cloud-platform presence signal is set" as C8 states it: one of
the three platform variables is present in the environment. -/
def cloudSignalSet (e : Env) : Prop :=
  e.railwayEnvironment ≠ none ∨ e.render ≠ none ∨ e.flyAppName ≠ none

instance (e : Env) : Decidable (cloudSignalSet e) := by
  unfold cloudSignalSet; infer_instance

/-- An environment with `RAILWAY_ENVIRONMENT` set to the empty string and
`RENDER` set non-empty, and no `PORT`. -/
def envEx : Env :=
  { railwayEnvironment := some "", render := some "production",
    flyAppName := none, port := none }

/-- C8, as stated, is false: in `envEx` the cloud signal `RENDER` is set
(to `"production"`) and no explicit port is given, yet stdio — not HTTP —
is selected: the `??` chain stops at the present-but-empty
`RAILWAY_ENVIRONMENT`, which is falsy, so no default port is implied. -/
theorem transport_selection_cloud_cex :
    envEx.render = some "production" ∧ envEx.port = none ∧
      selectTransport envEx = Transport.stdio :=
  ⟨rfl, rfl, by decide⟩

/-- C8 amended: exactly one transport is selected, HTTP precisely when the
computed `PORT` value is truthy; and when `PORT` is unset or empty, the
transport is HTTP with default port 3000 precisely when the first present
value of the chain `RAILWAY_ENVIRONMENT ?? RENDER ?? FLY_APP_NAME ?? PORT`
is non-empty (`IS_CLOUD`) — a cloud signal appearing after a
present-but-empty one is ignored. -/
theorem transport_selection (e : Env) :
    (selectTransport e = Transport.http ↔ portTruthy (PORT e) = true) ∧
      (selectTransport e = Transport.stdio ↔ portTruthy (PORT e) = false) ∧
      (optStrTruthy e.port = false →
        (IS_CLOUD e = true →
          PORT e = PortVal.num 3000 ∧ selectTransport e = Transport.http) ∧
        (IS_CLOUD e = false →
          PORT e = PortVal.null ∧ selectTransport e = Transport.stdio)) := by
  refine ⟨?_, ?_, fun hp => ⟨fun hc => ?_, fun hc => ?_⟩⟩
  · unfold selectTransport
    by_cases hb : portTruthy (PORT e) = true <;> simp [hb]
  · unfold selectTransport
    by_cases hb : portTruthy (PORT e) = true <;> simp [hb]
  · have hP : PORT e = PortVal.num 3000 := by
      unfold PORT
      cases hpe : e.port with
      | none => simp [hc]
      | some s =>
        have : strTruthy s = false := by simpa [optStrTruthy, hpe] using hp
        simp [this, hc]
    refine ⟨hP, ?_⟩
    unfold selectTransport
    rw [hP]
    simp [portTruthy]
  · have hP : PORT e = PortVal.null := by
      unfold PORT
      cases hpe : e.port with
      | none => simp [hc]
      | some s =>
        have : strTruthy s = false := by simpa [optStrTruthy, hpe] using hp
        simp [this, hc]
    refine ⟨hP, ?_⟩
    unfold selectTransport
    rw [hP]
    simp [portTruthy]

/-- An environment where only `FLY_APP_NAME` is set (non-empty) and `PORT`
is unset. -/
def envCloudEx : Env :=
  { railwayEnvironment := none, render := none, flyAppName := some "my-app",
    port := none }

/-- Witness for the amended C8 at `envCloudEx`: a non-empty cloud signal
with no explicit port implies port 3000 and the HTTP transport. -/
theorem transport_selection_witness :
    optStrTruthy envCloudEx.port = false ∧ IS_CLOUD envCloudEx = true ∧
      PORT envCloudEx = PortVal.num 3000 ∧
      selectTransport envCloudEx = Transport.http :=
  ⟨by decide, by decide,
    ((transport_selection envCloudEx).2.2 (by decide)).1 (by decide)⟩

/-- C9: each of the six registered handlers is deterministic — two calls
with the same upstream snapshot and the same (validated) arguments return
the same text (the embedding exhibits each handler as a pure function of
exactly that pair, with no other state). -/
theorem handlers_deterministic (u u' : Upstream) (o o' : JsonObj)
    (hu : u = u') (ho : o = o') :
    regListRepos u o = regListRepos u' o' ∧
      regGetRepoDetails u o = regGetRepoDetails u' o' ∧
      regGetLanguages u o = regGetLanguages u' o' ∧
      regGetProfile u o = regGetProfile u' o' ∧
      regSearchRepos u o = regSearchRepos u' o' ∧
      regGetTechStack u o = regGetTechStack u' o' := by
  subst hu
  subst ho
  exact ⟨rfl, rfl, rfl, rfl, rfl, rfl⟩

/-- Witness for C9 at the concrete snapshot `upstreamEx` and empty
arguments. -/
theorem handlers_deterministic_witness :
    regListRepos upstreamEx [] = regListRepos upstreamEx [] ∧
      regGetRepoDetails upstreamEx [] = regGetRepoDetails upstreamEx [] ∧
      regGetLanguages upstreamEx [] = regGetLanguages upstreamEx [] ∧
      regGetProfile upstreamEx [] = regGetProfile upstreamEx [] ∧
      regSearchRepos upstreamEx [] = regSearchRepos upstreamEx [] ∧
      regGetTechStack upstreamEx [] = regGetTechStack upstreamEx [] :=
  handlers_deterministic upstreamEx upstreamEx [] [] rfl rfl

end GithubPortfolio
